import Mathlib

/-!
Shallow embedding of the zkUSD services pipeline: the block-watching
orchestrator (`src/services/orchestrator.ts`), the oracle submission
collector (`src/services/oracle-aggregator.ts`), the event reconciler
(`EventProcessor.processEvents`), the event ledger
(`EventModel.storeFromEvent`) and the vault reducer
(`VaultModel.updateFromEvent`).

Conventions of the embedding:
* block heights, slots and amounts (`UInt32`, `UInt64`, `Decimal128`, all
  unsigned in the source) are `Nat`;
* timestamps (`new Date()`) are an explicit `now : Nat` parameter;
* the awaited results of external calls (`fetchLastBlock`, the worker
  reply racing the 60s timer, `engine.fetchEvents`, store I/O faults) are
  explicit inputs, so every function is a pure, executable transition;
* the Mongo collections are association lists: the `events` collection is
  keyed by the compound unique index (transactionHash, chainStatus), the
  `vaults` collection by `address`, and the singleton `block_tracker`
  document is an `Option`;
* `findOneAndUpdate` with `upsert: true` does not run document
  validators, so a fresh vault document created by a non-NewVault event
  holds only the fields of that update: the vault fields that mongoose
  would leave absent are modelled as `Option`.
-/

set_option maxHeartbeats 1000000

namespace ZkUsdServices

/-! ## Orchestrator (`src/services/orchestrator.ts`) -/

namespace Orchestrator

/-- The mutable fields of the `Orchestrator` class that `checkNewBlock`
reads or writes (`currentBlockHeight`, `isProcessing`, `blockWorker`). -/
structure OrchState where
  currentBlockHeight : Nat
  isProcessing : Bool
  hasWorker : Bool
  deriving DecidableEq, Repr

/-- `new Orchestrator()`: `currentBlockHeight = UInt32.from(0)`,
`isProcessing = false`, `blockWorker = null`. -/
def initialState : OrchState :=
  { currentBlockHeight := 0, isProcessing := false, hasWorker := false }

/-- `orchestrator.setBlockWorker(worker)`. -/
def setBlockWorker (s : OrchState) : OrchState :=
  { s with hasWorker := true }

/-- Observable side effects of one `checkNewBlock` invocation. -/
inductive Action where
  /-- `fetchLastBlock()` was awaited. -/
  | queryHead
  /-- `blockWorker.send({type: 'processBlock', data: {blockHeight}})`. -/
  | sendProcessBlock (height : Nat)
  /-- `this.blockWorker?.kill()`. -/
  | killWorker
  /-- `setTimeout(() => process.exit(code), delayMs)`. -/
  | scheduleExit (delayMs : Nat) (code : Nat)
  deriving DecidableEq, Repr

/-- Result of `await fetchLastBlock()` — either a head height or a thrown
error carrying its message. -/
inductive FetchResult where
  | ok (height : Nat)
  | err (msg : String)
  deriving DecidableEq, Repr

/-- Outcome of racing the worker's reply for one `processBlock` request
against the 60s timer inside `handleNewBlock`:
* `success` — a `{type:'success'}` message settled the race;
* `workerError msg` — a `{type:'error', error: msg}` message arrived;
* `errorEvent msg` — the child process emitted an `'error'` event;
* `exited code` — the child process emitted `'exit'` with `code` while the
  request was outstanding (only `code ≠ 0` rejects the promise; an exit
  with code 0 leaves the promise pending so the 60s timer fires instead);
* `timedOut` — no settling event within 60s. -/
inductive WorkerReply where
  | success
  | workerError (msg : String)
  | errorEvent (msg : String)
  | exited (code : Nat)
  | timedOut
  deriving DecidableEq, Repr

/-- The 60 000 ms timeout raced against the worker reply. -/
def blockProcessingTimeoutMs : Nat := 60000

/-- The grace delay before `process.exit(1)` on the fatal path. -/
def exitGraceDelayMs : Nat := 3000

/-- `error.message.includes(pat)`: contiguous-substring test. -/
def msgIncludes (msg pat : String) : Bool :=
  (List.range (msg.data.length + 1)).any
    (fun i => pat.data.isPrefixOf (msg.data.drop i))

/-- `Orchestrator.handleNewBlock(blockHeight)`: sends the `processBlock`
request (after the null-worker check) and rejects or resolves according
to the race outcome.  Returns the thrown error message (if any) and the
actions performed. -/
def handleNewBlock (s : OrchState) (height : Nat) (reply : WorkerReply) :
    Except String Unit × List Action :=
  if s.hasWorker then
    let acts : List Action := [.sendProcessBlock height]
    match reply with
    | .success => (.ok (), acts)
    | .workerError msg => (.error msg, acts)
    | .errorEvent msg => (.error msg, acts)
    | .exited code =>
        if code = 0 then
          -- an exit with code 0 never rejects; the 60s timer wins the race
          (.error "Block processing timeout", acts)
        else
          (.error ("Worker exited with code " ++ toString code), acts)
    | .timedOut => (.error "Block processing timeout", acts)
  else
    (.error "Block worker not initialized", [])

/-- How one `checkNewBlock` invocation ended. -/
inductive CheckOutcome where
  /-- the `isProcessing` guard returned immediately -/
  | skipped
  /-- head height did not exceed the watermark -/
  | noNewBlock
  /-- `handleNewBlock` resolved; the watermark was advanced -/
  | processed
  /-- something threw; the `catch` block ran with this message -/
  | failed (msg : String)
  deriving DecidableEq, Repr

/-- Result of one `checkNewBlock` invocation. -/
structure CheckResult where
  state : OrchState
  actions : List Action
  outcome : CheckOutcome
  deriving DecidableEq, Repr

/-- The `catch` block's fatal path: `this.blockWorker?.kill()` (a no-op
when the worker reference is null) followed by scheduling
`process.exit(1)` after the 3s grace delay. -/
def fatalActions (s : OrchState) : List Action :=
  (if s.hasWorker then [Action.killWorker] else []) ++
    [Action.scheduleExit exitGraceDelayMs 1]

/-- `Orchestrator.checkNewBlock()`.  The `isProcessing` guard returns at
once; otherwise the head is fetched, `handleNewBlock` runs when the head
exceeds the local watermark, the watermark is assigned only after
`handleNewBlock` resolves, and the `catch` block kills the worker and
schedules `process.exit(1)` only when the caught message contains
`'Block processing timeout'`.  `finally` clears `isProcessing`, so the
returned state has it false again. -/
def checkNewBlock (s : OrchState) (fetch : FetchResult) (reply : WorkerReply) :
    CheckResult :=
  if s.isProcessing then
    { state := s, actions := [], outcome := .skipped }
  else
    match fetch with
    | .err msg =>
        -- `fetchLastBlock` threw: caught and logged; fatal path only if the
        -- message happens to contain the timeout marker
        if msgIncludes msg "Block processing timeout" then
          { state := s
            actions := .queryHead :: fatalActions s
            outcome := .failed msg }
        else
          { state := s, actions := [.queryHead], outcome := .failed msg }
    | .ok height =>
        if s.currentBlockHeight < height then
          match handleNewBlock s height reply with
          | (.ok _, acts) =>
              { state := { s with currentBlockHeight := height }
                actions := .queryHead :: acts
                outcome := .processed }
          | (.error msg, acts) =>
              if msgIncludes msg "Block processing timeout" then
                { state := s
                  actions := .queryHead :: acts ++ fatalActions s
                  outcome := .failed msg }
              else
                { state := s
                  actions := .queryHead :: acts
                  outcome := .failed msg }
        else
          { state := s, actions := [.queryHead], outcome := .noNewBlock }

end Orchestrator

/-! ## Chain events (`src/types/event.ts`) -/

/-- The `type` discriminator of a chain event (`VaultEventTypes` and
`ProtocolEventTypes`). -/
inductive EventType where
  | NewVault
  | VaultOwnerUpdated
  | DepositCollateral
  | RedeemCollateral
  | MintZkUsd
  | BurnZkUsd
  | Liquidate
  | AdminUpdated
  | EmergencyStopToggled
  | ValidPriceBlockCountUpdated
  | OracleWhitelistUpdated
  deriving DecidableEq, Repr

/-- The event payload (`event.data`, `Schema.Types.Mixed` in the store).
The union of the fields the reducer reads; an event kind simply ignores
the fields that its variant does not carry.  Public keys are their base58
strings, amounts the `Nat` value of the unsigned `UInt64`s. -/
structure EventData where
  vaultAddress : String
  owner : String
  newOwner : String
  vaultCollateralAmount : Nat
  vaultDebtAmount : Nat
  deriving DecidableEq, Repr

/-- One chain event as returned by `engine.fetchEvents` (`IEvent`). -/
structure ChainEvent where
  blockHeight : Nat
  blockHash : String
  parentBlockHash : String
  globalSlot : Nat
  chainStatus : String
  type : EventType
  data : EventData
  transactionHash : String
  transactionStatus : String
  transactionMemo : String
  deriving DecidableEq, Repr

/-- `EventProcessor.isVaultEvent`: membership in `VaultEventTypes`. -/
def isVaultEvent : EventType → Bool
  | .NewVault | .VaultOwnerUpdated | .DepositCollateral | .RedeemCollateral
  | .MintZkUsd | .BurnZkUsd | .Liquidate => true
  | _ => false

/-! ## Event ledger (`EventModel`, `src/models/event.model.ts`) -/

namespace EventModel

/-- A document of the `events` collection (`IEventSchema`). -/
structure StoredEvent where
  blockHeight : Nat
  blockHash : String
  parentBlockHash : String
  globalSlot : Nat
  chainStatus : String
  type : EventType
  data : EventData
  transactionHash : String
  transactionStatus : String
  transactionMemo : String
  deriving DecidableEq, Repr

/-- The compound unique index `(event.transactionInfo.transactionHash,
chainStatus)`. -/
def docKey (d : StoredEvent) : String × String :=
  (d.transactionHash, d.chainStatus)

/-- The same compound key read off an incoming chain event. -/
def eventKey (e : ChainEvent) : String × String :=
  (e.transactionHash, e.chainStatus)

/-- The document that `storeFromEvent` builds from an event. -/
def docOf (e : ChainEvent) : StoredEvent :=
  { blockHeight := e.blockHeight
    blockHash := e.blockHash
    parentBlockHash := e.parentBlockHash
    globalSlot := e.globalSlot
    chainStatus := e.chainStatus
    type := e.type
    data := e.data
    transactionHash := e.transactionHash
    transactionStatus := e.transactionStatus
    transactionMemo := e.transactionMemo }

/-- `findOneAndUpdate({key}, doc, {upsert: true})` on the `events`
collection: replace the document matching the compound key, else append. -/
def upsert (led : List StoredEvent) (d : StoredEvent) : List StoredEvent :=
  match led with
  | [] => [d]
  | x :: rest =>
      if docKey x = docKey d then d :: rest else x :: upsert rest d

/-- `EventModel.findOne({transactionHash, chainStatus}) !== null`. -/
def hasKey (led : List StoredEvent) (k : String × String) : Bool :=
  led.any (fun d => docKey d = k)

/-- `EventModel.storeFromEvent(event)`. -/
def storeFromEvent (led : List StoredEvent) (e : ChainEvent) :
    List StoredEvent :=
  upsert led (docOf e)

/-- Number of documents matching a compound key. -/
def countKey (led : List StoredEvent) (k : String × String) : Nat :=
  (led.filter (fun d => docKey d = k)).length

end EventModel

/-! ## Vault reducer (`VaultModel`, `src/models/vault.model.ts`) -/

namespace VaultModel

/-- A document of the `vaults` collection.  `findOneAndUpdate` with
`upsert: true` runs no validators, so a document created by a
non-NewVault event lacks `owner` (and one created by `VaultOwnerUpdated`
lacks the amounts); the possibly-absent fields are `Option`. -/
structure VaultDoc where
  owner : Option String
  collateralAmount : Option Nat
  debtAmount : Option Nat
  lastUpdateBlock : Nat
  lastUpdateTimestamp : Nat
  latestTransactionHash : String
  deriving DecidableEq, Repr

/-- Vault store: association list from `address` (unique index) to the
vault document. -/
abbrev VaultStore := List (String × VaultDoc)

/-- `findOneAndUpdate({address}, updateData, {upsert: true, new: true})`:
replace the binding for the address, else append it. -/
def upsert (vs : VaultStore) (addr : String) (v : VaultDoc) : VaultStore :=
  match vs with
  | [] => [(addr, v)]
  | (b, w) :: rest =>
      if b = addr then (addr, v) :: rest else (b, w) :: upsert rest addr v

/-- The switch on `event.type` building `updateData`, applied on top of
the existing document (or a fresh all-absent one when the upsert
creates the document).  `base` already carries the unconditional
`lastUpdateBlock` / `lastUpdateTimestamp` / `latestTransactionHash`
assignments. -/
def applyEventFields (base : VaultDoc) (e : ChainEvent) : VaultDoc :=
  match e.type with
  | .NewVault =>
      { base with
        collateralAmount := some 0
        debtAmount := some 0
        owner := some e.data.owner }
  | .VaultOwnerUpdated =>
      { base with owner := some e.data.newOwner }
  | .DepositCollateral | .RedeemCollateral | .MintZkUsd | .BurnZkUsd =>
      { base with
        collateralAmount := some e.data.vaultCollateralAmount
        debtAmount := some e.data.vaultDebtAmount }
  | .Liquidate =>
      { base with collateralAmount := some 0, debtAmount := some 0 }
  | _ => base

/-- The document mongoose leaves when the upsert has to create one: no
field of the schema is present yet.  The always-set `Nat`/`String`
fields are immediately overwritten by `updateData`, so their fillers
here are never observable. -/
def emptyDoc : VaultDoc :=
  { owner := none, collateralAmount := none, debtAmount := none
    lastUpdateBlock := 0, lastUpdateTimestamp := 0
    latestTransactionHash := "" }

/-- `VaultModel.updateFromEvent(event)`.  Returns the updated store and
the reported `Boolean` (`false` exactly when the idempotence guard
`existingVault.latestTransactionHash === transactionHash` fires). -/
def updateFromEvent (vs : VaultStore) (e : ChainEvent) (now : Nat) :
    VaultStore × Bool :=
  let txh := e.transactionHash
  let addr := e.data.vaultAddress
  let existing := vs.lookup addr
  match existing with
  | some v =>
      if v.latestTransactionHash = txh then
        (vs, false)
      else
        let base :=
          { v with
            lastUpdateBlock := e.blockHeight
            lastUpdateTimestamp := now
            latestTransactionHash := txh }
        (upsert vs addr (applyEventFields base e), true)
  | none =>
      let base :=
        { emptyDoc with
          lastUpdateBlock := e.blockHeight
          lastUpdateTimestamp := now
          latestTransactionHash := txh }
      (upsert vs addr (applyEventFields base e), true)

end VaultModel

/-! ## Block tracker (`BlockTrackerModel`, `src/models/block-tracker.model.ts`)
and the reconciler (`EventProcessor.processEvents`,
`src/services/event-processor.ts`) -/

/-- The singleton `block_tracker` document.  `isProcessing` is declared
on `IBlockTrackerSchema` (`src/types/block-tracker.ts`); note that the
mongoose schema omits it and `processEvents` never writes it. -/
structure BlockTracker where
  lastProcessedBlock : Nat
  lastProcessedAt : Nat
  isProcessing : Bool
  lastError : Option String
  startBlock : Nat
  deriving DecidableEq, Repr

namespace EventProcessor

/-- All durable state a reconciliation pass touches: the `events`
collection, the `vaults` collection and the singleton tracker (`none`
models a missing tracker document, in which case `processEvents`
throws `'No block found'`). -/
structure ReconState where
  events : List EventModel.StoredEvent
  vaults : VaultModel.VaultStore
  tracker : Option BlockTracker
  deriving DecidableEq, Repr

/-- A store-I/O fault injected while handling the event at a given index
of the fetched list: the per-event `try` catches it, logs and rethrows,
aborting the pass before that event changes anything. -/
abbrev FaultSpec := Option Nat

/-- The `for (const event of events)` loop.  Skips events whose compound
key already has a document, otherwise stores the event and, for vault
event types, applies the reducer, collecting into `eventsUpdated` the
events for which the reducer reported a change.  The `Bool` is false
when the injected fault aborted the loop. -/
def processLoop (led : List EventModel.StoredEvent)
    (vs : VaultModel.VaultStore) (evs : List ChainEvent) (idx : Nat)
    (fault : FaultSpec) (now : Nat) :
    List EventModel.StoredEvent × VaultModel.VaultStore ×
      List ChainEvent × Bool :=
  match evs with
  | [] => (led, vs, [], true)
  | e :: rest =>
      if fault = some idx then
        (led, vs, [], false)
      else if EventModel.hasKey led (EventModel.eventKey e) then
        processLoop led vs rest (idx + 1) fault now
      else
        let led' := EventModel.storeFromEvent led e
        if isVaultEvent e.type then
          let vres := VaultModel.updateFromEvent vs e now
          let rres := processLoop led' vres.1 rest (idx + 1) fault now
          (rres.1, rres.2.1,
            (if vres.2 then e :: rres.2.2.1 else rres.2.2.1), rres.2.2.2)
        else
          processLoop led' vs rest (idx + 1) fault now

/-- Result of one `processEvents` call: the durable state as it stands
when the call returns or throws, and the returned `eventsUpdated` list
or the thrown error message. -/
structure ProcResult where
  state : ReconState
  outcome : Except String (List ChainEvent)
  deriving Repr

/-- `EventProcessor.processEvents(blockHeight)`.  `fetchRes` is the
awaited result of `engine.fetchEvents(UInt32.from(fromBlock))` (the
events with height ≥ `fromBlock`, in source order, or a thrown error),
`fault` an injected store failure, `now` the wall clock.  On success the
tracker's `lastProcessedBlock`/`lastProcessedAt` are set
unconditionally; on any thrown error the tracker is left untouched. -/
def processEvents (s : ReconState) (targetHeight : Nat)
    (fetchRes : Except String (List ChainEvent)) (fault : FaultSpec)
    (now : Nat) : ProcResult :=
  match s.tracker with
  | none => { state := s, outcome := .error "No block found" }
  | some tracker =>
      -- fromBlock := tracker.lastProcessedBlock, or startBlock while the
      -- watermark is still 0; it only parametrizes the fetch, which is
      -- supplied here as `fetchRes`
      let _fromBlock :=
        if tracker.lastProcessedBlock = 0 then tracker.startBlock
        else tracker.lastProcessedBlock
      match fetchRes with
      | .error msg => { state := s, outcome := .error msg }
      | .ok evs =>
          let res := processLoop s.events s.vaults evs 0 fault now
          if res.2.2.2 then
            { state :=
                { events := res.1, vaults := res.2.1
                  tracker := some
                    { tracker with
                      lastProcessedBlock := targetHeight
                      lastProcessedAt := now } }
              outcome := .ok res.2.2.1 }
          else
            { state := { events := res.1, vaults := res.2.1
                         tracker := s.tracker }
              outcome := .error "event processing failed" }

end EventProcessor

/-! ## Oracle submission collector
(`OracleAggregator`, `src/services/oracle-aggregator.ts`) -/

namespace OracleAggregator

/-- A configured oracle key pair (`config.oracleKeys[i]`), keys as base58
strings. -/
structure KeyPair where
  publicKey : String
  privateKey : String
  deriving DecidableEq, Repr

/-- A submission's signature: either `Signature.empty()` for a dummy
slot, or the symbolic result of
`client.signFields([price, blockHeight], privateKey)`. -/
inductive OracleSignature where
  | empty
  | signFields (fields : List Nat) (privateKey : String)
  deriving DecidableEq, Repr

/-- One `PriceSubmission` as constructed by `collectSubmissions`. -/
structure PriceSubmission where
  publicKey : String
  price : Nat
  signature : OracleSignature
  blockHeight : Nat
  isDummy : Bool
  deriving DecidableEq, Repr

/-- `UInt64.from(0.8e9)` — the hard-coded 80-cent price in nanoUSD. -/
def submissionPrice : Nat := 800000000

/-- The body of the `Array.from({length: MAX_PARTICIPANTS}).map` callback
for one slot `index`: a signed submission when `config.oracleKeys[index]`
exists, otherwise a dummy submission carrying
`config.oracleWhitelist.addresses[index]`.  An absent whitelist address
(`undefined` in the source) makes the `PriceSubmission` constructor
throw, which the surrounding `try` catches. -/
def buildSubmission (oracleKeys : List KeyPair)
    (whitelistAddrs : List String) (blockHeight index : Nat) :
    Except String PriceSubmission :=
  match oracleKeys[index]? with
  | some k =>
      .ok
        { publicKey := k.publicKey
          price := submissionPrice
          signature := .signFields [submissionPrice, blockHeight] k.privateKey
          blockHeight := blockHeight
          isDummy := false }
  | none =>
      match whitelistAddrs[index]? with
      | some a =>
          .ok
            { publicKey := a
              price := submissionPrice
              signature := .empty
              blockHeight := blockHeight
              isDummy := true }
      | none => .error "undefined whitelist address"

/-- Builds the submissions for the given slot indices in order, stopping
at the first internal failure. -/
def collectAux (oracleKeys : List KeyPair) (whitelistAddrs : List String)
    (blockHeight : Nat) : List Nat → Except String (List PriceSubmission)
  | [] => .ok []
  | i :: rest =>
      match buildSubmission oracleKeys whitelistAddrs blockHeight i with
      | .error e => .error e
      | .ok sub =>
          match collectAux oracleKeys whitelistAddrs blockHeight rest with
          | .error e => .error e
          | .ok subs => .ok (sub :: subs)

/-- `OracleAggregator.collectSubmissions(blockHeight)`:
`maxParticipants` is `OracleWhitelist.MAX_PARTICIPANTS`, `oracleKeys`
and `whitelistAddrs` the configured key list and whitelist addresses.
The whole body sits in a `try` whose `catch` rethrows the single
classified error, so no partial list ever escapes. -/
def collectSubmissions (maxParticipants : Nat) (oracleKeys : List KeyPair)
    (whitelistAddrs : List String) (blockHeight : Nat) :
    Except String (List PriceSubmission) :=
  match collectAux oracleKeys whitelistAddrs blockHeight
      (List.range maxParticipants) with
  | .ok subs => .ok subs
  | .error _ => .error "Failed to collect oracle submissions"

end OracleAggregator

/-! ## Theorems about the orchestrator -/

namespace Orchestrator

/-- Claim C1: for every invocation of `checkNewBlock` in which
`handleNewBlock` throws (worker-reported error, timeout, or any other
failure), the local watermark `currentBlockHeight` is left unchanged; it
is set to the fetched head height only when `handleNewBlock` returns
successfully, so across all invocations the watermark is non-decreasing
and advances only on the success path. -/
theorem checkNewBlock_watermark_advances_only_on_success
    (s : OrchState) (fetch : FetchResult) (reply : WorkerReply) :
    ((∃ msg, (checkNewBlock s fetch reply).outcome = .failed msg) →
      (checkNewBlock s fetch reply).state.currentBlockHeight =
        s.currentBlockHeight) ∧
    s.currentBlockHeight ≤
      (checkNewBlock s fetch reply).state.currentBlockHeight ∧
    ((checkNewBlock s fetch reply).state.currentBlockHeight ≠
        s.currentBlockHeight →
      (checkNewBlock s fetch reply).outcome = .processed ∧
      ∃ hgt, fetch = .ok hgt ∧
        (checkNewBlock s fetch reply).state.currentBlockHeight = hgt ∧
        s.currentBlockHeight < hgt) := by
  unfold checkNewBlock
  by_cases hproc : s.isProcessing
  · simp [hproc]
  · rw [if_neg (by simp [hproc])]
    cases fetch with
    | err msg =>
        dsimp only
        by_cases hm : msgIncludes msg "Block processing timeout" = true
        · rw [if_pos hm]
          exact ⟨fun _ => rfl, Nat.le_refl _, fun hne => absurd rfl hne⟩
        · rw [if_neg hm]
          exact ⟨fun _ => rfl, Nat.le_refl _, fun hne => absurd rfl hne⟩
    | ok hgt =>
        dsimp only
        by_cases hlt : s.currentBlockHeight < hgt
        · rw [if_pos hlt]
          rcases hres : handleNewBlock s hgt reply with ⟨res, acts⟩
          cases res with
          | ok u =>
              dsimp only
              exact ⟨fun hex => absurd hex.choose_spec (by simp),
                Nat.le_of_lt hlt, fun _ => ⟨rfl, hgt, rfl, rfl, hlt⟩⟩
          | error msg =>
              dsimp only
              by_cases hm : msgIncludes msg "Block processing timeout" = true
              · rw [if_pos hm]
                exact ⟨fun _ => rfl, Nat.le_refl _, fun hne => absurd rfl hne⟩
              · rw [if_neg hm]
                exact ⟨fun _ => rfl, Nat.le_refl _, fun hne => absurd rfl hne⟩
        · rw [if_neg hlt]
          exact ⟨fun _ => rfl, Nat.le_refl _, fun hne => absurd rfl hne⟩

/-- Witness for C1: a worker-reported error at head 9 from watermark 5
leaves the watermark at 5. -/
theorem checkNewBlock_watermark_advances_only_on_success_witness :
    (checkNewBlock ⟨5, false, true⟩ (.ok 9)
      (.workerError "boom")).state.currentBlockHeight = 5 :=
  (checkNewBlock_watermark_advances_only_on_success
    ⟨5, false, true⟩ (.ok 9) (.workerError "boom")).1 ⟨"boom", by decide⟩

/-- Claim C3: whenever `checkNewBlock` is invoked while `isProcessing`
is true, it returns immediately without querying the chain head and
without sending any `processBlock` message: the state is unchanged and
the action list is empty. -/
theorem checkNewBlock_single_flight
    (s : OrchState) (fetch : FetchResult) (reply : WorkerReply)
    (h : s.isProcessing = true) :
    checkNewBlock s fetch reply =
      { state := s, actions := [], outcome := .skipped } := by
  unfold checkNewBlock
  simp [h]

/-- Witness for C3: a concrete in-flight state is returned untouched. -/
theorem checkNewBlock_single_flight_witness :
    checkNewBlock ⟨7, true, true⟩ (.ok 9) .success =
      { state := ⟨7, true, true⟩, actions := [], outcome := .skipped } :=
  checkNewBlock_single_flight ⟨7, true, true⟩ (.ok 9) .success rfl

/-- Counterexample to claim C4: an unexpected worker exit (nonzero code)
while the request is outstanding rejects with `'Worker exited with code
1'`, which does not match the `'Block processing timeout'` test in the
`catch` block — the worker is not killed and no process exit is
scheduled, contradicting the claimed fatal handling of unexpected worker
exits. -/
theorem checkNewBlock_worker_exit_not_fatal_cex :
    checkNewBlock ⟨0, false, true⟩ (.ok 5) (.exited 1) =
      { state := ⟨0, false, true⟩
        actions := [.queryHead, .sendProcessBlock 5]
        outcome := .failed "Worker exited with code 1" } := by decide

/-- `Nat.digitChar` never yields an uppercase letter, in particular not
the `'B'` that opens the timeout marker. -/
theorem digitChar_ne_B (m : Nat) : Nat.digitChar m ≠ 'B' := by
  rcases Nat.lt_or_ge m 16 with hlt | hge
  · interval_cases m <;> decide
  · unfold Nat.digitChar
    iterate 16 rw [if_neg (by omega)]
    decide

/-- Every character produced by `Nat.toDigitsCore` is a digit character
or comes from the accumulator. -/
theorem mem_toDigitsCore (b : Nat) (fuel : Nat) :
    ∀ (n : Nat) (ds : List Char) (c : Char),
      c ∈ Nat.toDigitsCore b fuel n ds →
      (∃ m, c = Nat.digitChar m) ∨ c ∈ ds := by
  induction fuel with
  | zero => intro n ds c h; exact .inr h
  | succ fuel ih =>
      intro n ds c h
      unfold Nat.toDigitsCore at h
      dsimp only at h
      split at h
      · rcases List.mem_cons.mp h with hc | hc
        · exact .inl ⟨n % b, hc⟩
        · exact .inr hc
      · rcases ih (n / b) (Nat.digitChar (n % b) :: ds) c h with hd | hd
        · exact .inl hd
        · rcases List.mem_cons.mp hd with hc | hc
          · exact .inl ⟨n % b, hc⟩
          · exact .inr hc

/-- The decimal representation of a natural number contains no `'B'`. -/
theorem char_B_not_mem_repr (n : Nat) : 'B' ∉ (Nat.repr n).data := by
  intro hmem
  rcases mem_toDigitsCore 10 (n + 1) n [] 'B' hmem with ⟨m, hm⟩ | hm
  · exact digitChar_ne_B m hm.symm
  · cases hm

/-- A message without `'B'` cannot contain the substring
`'Block processing timeout'`. -/
theorem not_includes_of_B_not_mem (msg : String) (h : 'B' ∉ msg.data) :
    msgIncludes msg "Block processing timeout" = false := by
  cases hb : msgIncludes msg "Block processing timeout" with
  | false => rfl
  | true =>
      exfalso
      unfold msgIncludes at hb
      rw [List.any_eq_true] at hb
      obtain ⟨i, _, hpre⟩ := hb
      have hpfx : ("Block processing timeout".data) <+: (msg.data.drop i) :=
        List.isPrefixOf_iff_prefix.mp hpre
      have hBdrop : 'B' ∈ msg.data.drop i :=
        hpfx.subset (by decide)
      exact h (List.mem_of_mem_drop hBdrop)

/-- The `'Worker exited with code N'` rejection message never matches
the `catch` block's `'Block processing timeout'` test. -/
theorem workerExit_msg_not_timeout (code : Nat) :
    msgIncludes ("Worker exited with code " ++ toString code)
      "Block processing timeout" = false := by
  apply not_includes_of_B_not_mem
  intro hmem
  have hsplit :
      ("Worker exited with code " ++ toString code).data =
        "Worker exited with code ".data ++ (Nat.repr code).data := rfl
  rw [hsplit] at hmem
  rcases List.mem_append.mp hmem with hc | hc
  · revert hc; decide
  · exact char_B_not_mem_repr code hc

/-- Amended claim C4: only the timeout path is fatal.  If no reply
arrives within the 60s timeout — including the case of a worker exiting
with code 0 while the request is outstanding, which leaves the reply
promise unsettled — the orchestrator kills the worker and schedules
`process.exit(1)` after the grace delay.  An unexpected worker exit
with a nonzero code instead rejects the request with a
`'Worker exited with code N'` error: the failure propagates, but no
kill and no process exit happen. -/
theorem checkNewBlock_fatal_only_on_timeout
    (s : OrchState) (hgt : Nat)
    (hproc : s.isProcessing = false) (hw : s.hasWorker = true)
    (hlt : s.currentBlockHeight < hgt) :
    (checkNewBlock s (.ok hgt) .timedOut).actions =
      [.queryHead, .sendProcessBlock hgt, .killWorker,
        .scheduleExit exitGraceDelayMs 1] ∧
    (checkNewBlock s (.ok hgt) .timedOut).state = s ∧
    (checkNewBlock s (.ok hgt) (.exited 0)).actions =
      [.queryHead, .sendProcessBlock hgt, .killWorker,
        .scheduleExit exitGraceDelayMs 1] ∧
    (∀ code, code ≠ 0 →
      (checkNewBlock s (.ok hgt) (.exited code)).actions =
        [.queryHead, .sendProcessBlock hgt] ∧
      (checkNewBlock s (.ok hgt) (.exited code)).outcome =
        .failed ("Worker exited with code " ++ toString code)) ∧
    blockProcessingTimeoutMs = 60000 := by
  have htime :
      msgIncludes "Block processing timeout" "Block processing timeout"
        = true := by decide
  refine ⟨?_, ?_, ?_, ?_, rfl⟩
  · simp [checkNewBlock, handleNewBlock, fatalActions, hproc, hw, hlt, htime]
  · simp [checkNewBlock, handleNewBlock, fatalActions, hproc, hw, hlt, htime]
  · simp [checkNewBlock, handleNewBlock, fatalActions, hproc, hw, hlt, htime]
  · intro code hc
    constructor <;>
      simp [checkNewBlock, handleNewBlock, fatalActions, hproc, hw, hlt,
        hc, workerExit_msg_not_timeout]

/-- Witness for the amended C4: concrete timeout run from watermark 0 at
head 5. -/
theorem checkNewBlock_fatal_only_on_timeout_witness :
    (checkNewBlock ⟨0, false, true⟩ (.ok 5) .timedOut).actions =
      [.queryHead, .sendProcessBlock 5, .killWorker,
        .scheduleExit exitGraceDelayMs 1] :=
  (checkNewBlock_fatal_only_on_timeout ⟨0, false, true⟩ 5 rfl rfl
    (by decide)).1

/-- Claim C10: the in-memory watermark starts at 0 at construction and
is never loaded from the durable checkpoint, so after every process
start the first poll that observes any chain head height greater than 0
dispatches a `processBlock` for that head, whatever the persisted
tracker document says (the tracker is quantified and unused: the
orchestrator state carries no checkpoint data). -/
theorem initial_watermark_zero_first_poll_dispatches
    (tracker : BlockTracker) (hgt : Nat) (reply : WorkerReply)
    (h : 0 < hgt) :
    initialState.currentBlockHeight = 0 ∧
    Action.sendProcessBlock hgt ∈
      (checkNewBlock (setBlockWorker initialState) (.ok hgt) reply).actions
    := by
  refine ⟨rfl, ?_⟩
  unfold checkNewBlock setBlockWorker initialState handleNewBlock
  cases reply with
  | success => simp [h]
  | workerError msg => simp [h]; split <;> simp
  | errorEvent msg => simp [h]; split <;> simp
  | exited code =>
      by_cases hc : code = 0 <;> simp [h, hc] <;> split <;> simp_all
  | timedOut => simp [h]; split <;> simp

/-- Witness for C10: with any concrete tracker, head 42 is dispatched on
the first poll. -/
theorem initial_watermark_zero_first_poll_dispatches_witness :
    Action.sendProcessBlock 42 ∈
      (checkNewBlock (setBlockWorker initialState) (.ok 42)
        .success).actions :=
  (initial_watermark_zero_first_poll_dispatches
    ⟨100, 0, false, none, 10⟩ 42 .success (by decide)).2

end Orchestrator

/-! ## Theorems about the vault reducer -/

namespace VaultModel

/-- Looking up the upserted address finds the upserted document. -/
theorem lookup_upsert_self (vs : VaultStore) (addr : String) (v : VaultDoc) :
    List.lookup addr (upsert vs addr v) = some v := by
  induction vs with
  | nil => simp [upsert, List.lookup_cons]
  | cons p rest ih =>
      rcases p with ⟨b, w⟩
      by_cases hb : b = addr
      · subst hb; simp [upsert, List.lookup_cons]
      · simp only [upsert, if_neg hb, List.lookup_cons]
        rw [beq_eq_false_iff_ne.mpr (Ne.symm hb)]
        exact ih

/-- Upserting one address does not change the binding of another. -/
theorem lookup_upsert_ne (vs : VaultStore) (addr : String) (v : VaultDoc)
    (a : String) (h : a ≠ addr) :
    List.lookup a (upsert vs addr v) = List.lookup a vs := by
  induction vs with
  | nil =>
      show List.lookup a [(addr, v)] = List.lookup a []
      rw [List.lookup_cons, beq_eq_false_iff_ne.mpr h]
  | cons p rest ih =>
      rcases p with ⟨b, w⟩
      by_cases hb : b = addr
      · subst hb
        rw [show upsert ((b, w) :: rest) b v = (b, v) :: rest from by
          simp [upsert]]
        rw [List.lookup_cons, List.lookup_cons, beq_eq_false_iff_ne.mpr h]
      · simp only [upsert, if_neg hb]
        rw [List.lookup_cons, List.lookup_cons]
        by_cases hab : a = b
        · subst hab; rw [beq_self_eq_true]
        · rw [beq_eq_false_iff_ne.mpr hab]
          exact ih

/-- The `updateData` switch leaves the unconditional bookkeeping fields
of `base` untouched. -/
theorem applyEventFields_meta (base : VaultDoc) (e : ChainEvent) :
    (applyEventFields base e).latestTransactionHash =
      base.latestTransactionHash ∧
    (applyEventFields base e).lastUpdateBlock = base.lastUpdateBlock ∧
    (applyEventFields base e).lastUpdateTimestamp =
      base.lastUpdateTimestamp := by
  obtain ⟨bh, bhash, pbh, gs, cs, ty, d, th, ts, tm⟩ := e
  cases ty <;> simp [applyEventFields]

/-- Claim C6: for every vault event whose transaction hash differs from
the stored vault's `latestTransactionHash` (or that has no stored
vault), `updateFromEvent` applies the transition table — NewVault zeroes
the amounts and sets the owner; VaultOwnerUpdated sets the owner;
Deposit/Redeem/Mint/Burn replace the amounts with the absolute amounts
carried by the event; Liquidate zeroes the amounts — and in every case
sets `latestTransactionHash`, `lastUpdateBlock`, `lastUpdateTimestamp`
and reports a real state change. -/
theorem updateFromEvent_transition_table
    (vs : VaultStore) (e : ChainEvent) (now : Nat)
    (hguard : ∀ v, List.lookup e.data.vaultAddress vs = some v →
      v.latestTransactionHash ≠ e.transactionHash) :
    (updateFromEvent vs e now).2 = true ∧
    ∃ w, List.lookup e.data.vaultAddress (updateFromEvent vs e now).1 =
        some w ∧
      w.latestTransactionHash = e.transactionHash ∧
      w.lastUpdateBlock = e.blockHeight ∧
      w.lastUpdateTimestamp = now ∧
      (e.type = .NewVault →
        w.collateralAmount = some 0 ∧ w.debtAmount = some 0 ∧
        w.owner = some e.data.owner) ∧
      (e.type = .VaultOwnerUpdated → w.owner = some e.data.newOwner) ∧
      ((e.type = .DepositCollateral ∨ e.type = .RedeemCollateral ∨
          e.type = .MintZkUsd ∨ e.type = .BurnZkUsd) →
        w.collateralAmount = some e.data.vaultCollateralAmount ∧
        w.debtAmount = some e.data.vaultDebtAmount) ∧
      (e.type = .Liquidate →
        w.collateralAmount = some 0 ∧ w.debtAmount = some 0) := by
  obtain ⟨bh, bhash, pbh, gs, cs, ty, d, th, ts, tm⟩ := e
  dsimp only at hguard ⊢
  unfold updateFromEvent
  dsimp only
  cases hex : List.lookup d.vaultAddress vs with
  | none =>
      dsimp only
      cases ty <;>
        exact ⟨rfl, _, lookup_upsert_self _ _ _, by simp [applyEventFields]⟩
  | some v =>
      dsimp only
      rw [if_neg (hguard v hex)]
      cases ty <;>
        exact ⟨rfl, _, lookup_upsert_self _ _ _, by simp [applyEventFields]⟩

/-- Witness for C6: a DepositCollateral event for an address with no
stored vault is applied and reported as a change. -/
theorem updateFromEvent_transition_table_witness :
    (updateFromEvent []
      ⟨12, "bh", "pbh", 3, "pending", .DepositCollateral,
        ⟨"addrA", "", "", 50, 0⟩, "h1", "applied", ""⟩ 5).2 = true :=
  (updateFromEvent_transition_table [] _ 5
    (fun v h => Option.noConfusion h)).1

/-- Counterexample to claim C9: a DepositCollateral event arriving for
an address with no existing VaultAggregate does create one — the
`findOneAndUpdate` upsert runs for every event type, leaving a document
with the event's amounts and no owner field. -/
theorem nonNewVault_creates_vault_cex :
    List.lookup "addrA"
      (updateFromEvent []
        ⟨12, "bh", "pbh", 3, "pending", .DepositCollateral,
          ⟨"addrA", "", "", 50, 0⟩, "h1", "applied", ""⟩ 5).1 =
      some ⟨none, some 50, some 0, 12, 5, "h1"⟩ := by decide

/-- Amended claim C9: `updateFromEvent` upserts for every vault event
type — any event reaching the reducer for an address with no existing
VaultAggregate creates the document (with only that event's fields),
NewVault or not — and vault documents are never deleted: every address
bound before an update is still bound after it. -/
theorem updateFromEvent_upserts_and_never_deletes
    (vs : VaultStore) (e : ChainEvent) (now : Nat) :
    (List.lookup e.data.vaultAddress
      (updateFromEvent vs e now).1).isSome = true ∧
    ∀ a, (List.lookup a vs).isSome = true →
      (List.lookup a (updateFromEvent vs e now).1).isSome = true := by
  unfold updateFromEvent
  dsimp only
  cases hex : List.lookup e.data.vaultAddress vs with
  | none =>
      dsimp only
      constructor
      · rw [lookup_upsert_self]; rfl
      · intro a ha
        by_cases hab : a = e.data.vaultAddress
        · subst hab; rw [lookup_upsert_self]; rfl
        · rw [lookup_upsert_ne _ _ _ _ hab]; exact ha
  | some v =>
      dsimp only
      by_cases hguard : v.latestTransactionHash = e.transactionHash
      · rw [if_pos hguard]
        exact ⟨by rw [hex]; rfl, fun a ha => ha⟩
      · rw [if_neg hguard]
        constructor
        · rw [lookup_upsert_self]; rfl
        · intro a ha
          by_cases hab : a = e.data.vaultAddress
          · subst hab; rw [lookup_upsert_self]; rfl
          · rw [lookup_upsert_ne _ _ _ _ hab]; exact ha

/-- Witness for the amended C9: the deposit-created document is present,
and an unrelated existing binding survives the update. -/
theorem updateFromEvent_upserts_and_never_deletes_witness :
    (List.lookup "addrB"
      (updateFromEvent [("addrB", ⟨some "o", some 1, some 2, 1, 1, "h0"⟩)]
        ⟨12, "bh", "pbh", 3, "pending", .DepositCollateral,
          ⟨"addrA", "", "", 50, 0⟩, "h1", "applied", ""⟩ 5).1).isSome =
      true :=
  (updateFromEvent_upserts_and_never_deletes
    [("addrB", ⟨some "o", some 1, some 2, 1, 1, "h0"⟩)]
    ⟨12, "bh", "pbh", 3, "pending", .DepositCollateral,
      ⟨"addrA", "", "", 50, 0⟩, "h1", "applied", ""⟩ 5).2 "addrB" (by decide)

end VaultModel

/-! ## Theorems about the event ledger and the reconciler -/

namespace EventModel

/-- Membership of a compound key after an upsert. -/
theorem hasKey_upsert_iff (led : List StoredEvent) (d : StoredEvent)
    (k : String × String) :
    hasKey (upsert led d) k = true ↔
      (docKey d = k ∨ hasKey led k = true) := by
  induction led with
  | nil => simp [upsert, hasKey]
  | cons x rest ih =>
      simp only [upsert]
      by_cases hx : docKey x = docKey d
      · rw [if_pos hx]
        simp only [hasKey, List.any_cons, Bool.or_eq_true,
          decide_eq_true_eq]
        constructor
        · rintro (h | h)
          · exact .inl h
          · exact .inr (.inr h)
        · rintro (h | h | h)
          · exact .inl h
          · exact .inl (hx.symm.trans h)
          · exact .inr h
      · rw [if_neg hx]
        simp only [hasKey, List.any_cons, Bool.or_eq_true,
          decide_eq_true_eq] at ih ⊢
        constructor
        · rintro (h | h)
          · exact .inr (.inl h)
          · rcases ih.mp h with h' | h'
            · exact .inl h'
            · exact .inr (.inr h')
        · rintro (h | h | h)
          · exact .inr (ih.mpr (.inl h))
          · exact .inl h
          · exact .inr (ih.mpr (.inr h))

/-- Storing an event makes its compound key present. -/
theorem hasKey_storeFromEvent_self (led : List StoredEvent)
    (e : ChainEvent) :
    hasKey (storeFromEvent led e) (eventKey e) = true :=
  (hasKey_upsert_iff led (docOf e) (eventKey e)).mpr (.inl rfl)

/-- An upsert preserves every key that was already present. -/
theorem hasKey_upsert_mono (led : List StoredEvent) (d : StoredEvent)
    (k : String × String) (h : hasKey led k = true) :
    hasKey (upsert led d) k = true :=
  (hasKey_upsert_iff led d k).mpr (.inr h)

/-- The per-key document count on a cons cell. -/
theorem countKey_cons (x : StoredEvent) (led : List StoredEvent)
    (k : String × String) :
    countKey (x :: led) k =
      (if docKey x = k then 1 else 0) + countKey led k := by
  by_cases h : docKey x = k
  · simp [countKey, List.filter_cons, h, Nat.add_comm]
  · simp [countKey, List.filter_cons, h]

/-- Upserting a document leaves exactly its key counted once when it
was absent, and the previous count otherwise (the first matching
document is replaced in place). -/
theorem countKey_upsert_self (led : List StoredEvent) (d : StoredEvent) :
    countKey (upsert led d) (docKey d) =
      if countKey led (docKey d) = 0 then 1 else countKey led (docKey d)
    := by
  induction led with
  | nil => simp [upsert, countKey, List.filter_cons]
  | cons x rest ih =>
      by_cases hx : docKey x = docKey d
      · simp only [upsert, if_pos hx]
        rw [countKey_cons, countKey_cons, if_pos hx, if_pos rfl]
        rw [if_neg (by omega)]
      · simp only [upsert, if_neg hx]
        rw [countKey_cons, if_neg hx, countKey_cons, if_neg hx,
          Nat.zero_add, Nat.zero_add, ih]

/-- Upserting a document does not change the count of other keys. -/
theorem countKey_upsert_ne (led : List StoredEvent) (d : StoredEvent)
    (k : String × String) (h : k ≠ docKey d) :
    countKey (upsert led d) k = countKey led k := by
  have hdk : ¬(docKey d = k) := fun hh => h hh.symm
  induction led with
  | nil => simp [upsert, countKey, List.filter_cons, hdk]
  | cons x rest ih =>
      by_cases hx : docKey x = docKey d
      · have hxk : ¬(docKey x = k) := fun hh => hdk (hx.symm.trans hh)
        simp only [upsert, if_pos hx]
        rw [countKey_cons, countKey_cons, if_neg hdk, if_neg hxk]
      · simp only [upsert, if_neg hx]
        rw [countKey_cons, countKey_cons, ih]

/-- A present key is counted at least once. -/
theorem countKey_pos_of_hasKey (led : List StoredEvent)
    (k : String × String) (h : hasKey led k = true) :
    1 ≤ countKey led k := by
  unfold hasKey at h
  rw [List.any_eq_true] at h
  obtain ⟨d, hd, hdk⟩ := h
  have hmem : d ∈ led.filter (fun d => decide (docKey d = k)) :=
    List.mem_filter.mpr ⟨hd, hdk⟩
  exact List.length_pos.mpr (List.ne_nil_of_mem hmem)

/-- An absent key is counted zero times. -/
theorem countKey_zero_of_not_hasKey (led : List StoredEvent)
    (k : String × String) (h : hasKey led k = false) :
    countKey led k = 0 := by
  unfold hasKey at h
  rw [List.any_eq_false] at h
  unfold countKey
  rw [List.length_eq_zero, List.filter_eq_nil]
  exact h

end EventModel

namespace EventProcessor

/-- Without an injected fault, the loop's success flag is true. -/
theorem processLoop_ok_of_no_fault :
    ∀ (evs : List ChainEvent) (led : List EventModel.StoredEvent)
      (vs : VaultModel.VaultStore) (idx now : Nat),
      (processLoop led vs evs idx none now).2.2.2 = true := by
  intro evs
  induction evs with
  | nil => intro led vs idx now; rfl
  | cons e rest ih =>
      intro led vs idx now
      unfold processLoop
      try dsimp only
      rw [if_neg (by simp : ¬(none : Option Nat) = some idx)]
      by_cases hk : EventModel.hasKey led (EventModel.eventKey e) = true
      · rw [if_pos hk]; exact ih _ _ _ _
      · rw [if_neg hk]
        try dsimp only
        by_cases hv : isVaultEvent e.type = true
        · rw [if_pos hv]; exact ih _ _ _ _
        · rw [if_neg hv]; exact ih _ _ _ _

/-- The loop never removes a key from the ledger. -/
theorem processLoop_ledger_mono :
    ∀ (evs : List ChainEvent) (led : List EventModel.StoredEvent)
      (vs : VaultModel.VaultStore) (idx now : Nat) (k : String × String),
      EventModel.hasKey led k = true →
      EventModel.hasKey (processLoop led vs evs idx none now).1 k = true := by
  intro evs
  induction evs with
  | nil => intro led vs idx now k h; exact h
  | cons e rest ih =>
      intro led vs idx now k h
      unfold processLoop
      try dsimp only
      rw [if_neg (by simp : ¬(none : Option Nat) = some idx)]
      by_cases hk : EventModel.hasKey led (EventModel.eventKey e) = true
      · rw [if_pos hk]; exact ih _ _ _ _ _ h
      · rw [if_neg hk]
        try dsimp only
        by_cases hv : isVaultEvent e.type = true
        · rw [if_pos hv]
          exact ih _ _ _ _ _ (EventModel.hasKey_upsert_mono _ _ _ h)
        · rw [if_neg hv]
          exact ih _ _ _ _ _ (EventModel.hasKey_upsert_mono _ _ _ h)

/-- After the loop runs, every processed event's key is in the ledger. -/
theorem processLoop_covers :
    ∀ (evs : List ChainEvent) (led : List EventModel.StoredEvent)
      (vs : VaultModel.VaultStore) (idx now : Nat) (e : ChainEvent),
      e ∈ evs →
      EventModel.hasKey (processLoop led vs evs idx none now).1
        (EventModel.eventKey e) = true := by
  intro evs
  induction evs with
  | nil => intro led vs idx now e he; cases he
  | cons e0 rest ih =>
      intro led vs idx now e he
      unfold processLoop
      try dsimp only
      rw [if_neg (by simp : ¬(none : Option Nat) = some idx)]
      by_cases hk : EventModel.hasKey led (EventModel.eventKey e0) = true
      · rw [if_pos hk]
        rcases List.mem_cons.mp he with rfl | hmem
        · exact processLoop_ledger_mono _ _ _ _ _ _ hk
        · exact ih _ _ _ _ _ hmem
      · rw [if_neg hk]
        try dsimp only
        by_cases hv : isVaultEvent e0.type = true
        · rw [if_pos hv]
          rcases List.mem_cons.mp he with rfl | hmem
          · exact processLoop_ledger_mono _ _ _ _ _ _
              (EventModel.hasKey_storeFromEvent_self _ _)
          · exact ih _ _ _ _ _ hmem
        · rw [if_neg hv]
          rcases List.mem_cons.mp he with rfl | hmem
          · exact processLoop_ledger_mono _ _ _ _ _ _
              (EventModel.hasKey_storeFromEvent_self _ _)
          · exact ih _ _ _ _ _ hmem

/-- If every incoming event's key is already in the ledger, the loop is
the identity: everything is skipped. -/
theorem processLoop_skip_all :
    ∀ (evs : List ChainEvent) (led : List EventModel.StoredEvent)
      (vs : VaultModel.VaultStore) (idx now : Nat),
      (∀ e ∈ evs, EventModel.hasKey led (EventModel.eventKey e) = true) →
      processLoop led vs evs idx none now = (led, vs, [], true) := by
  intro evs
  induction evs with
  | nil => intro led vs idx now _; rfl
  | cons e rest ih =>
      intro led vs idx now h
      unfold processLoop
      try dsimp only
      rw [if_neg (by simp : ¬(none : Option Nat) = some idx)]
      rw [if_pos (h e (List.mem_cons_self e rest))]
      exact ih _ _ _ _ (fun e' he' => h e' (List.mem_cons_of_mem e he'))

/-- Claim C2: running the reconciliation twice over the same fetched
event sequence, starting from an empty event ledger and empty vault
store, yields exactly the same vault documents (and the same event
ledger) as running it once — end-to-end replay is idempotent. -/
theorem processEvents_replay_idempotent
    (tr : BlockTracker) (es : List ChainEvent) (t1 n1 t2 n2 : Nat) :
    (processEvents
        (processEvents ⟨[], [], some tr⟩ t1 (.ok es) none n1).state
        t2 (.ok es) none n2).state.vaults =
      (processEvents ⟨[], [], some tr⟩ t1 (.ok es) none n1).state.vaults ∧
    (processEvents
        (processEvents ⟨[], [], some tr⟩ t1 (.ok es) none n1).state
        t2 (.ok es) none n2).state.events =
      (processEvents ⟨[], [], some tr⟩ t1 (.ok es) none n1).state.events
    := by
  have hok1 := processLoop_ok_of_no_fault es [] [] 0 n1
  have hstate1 :
      (processEvents ⟨[], [], some tr⟩ t1 (.ok es) none n1).state =
        ⟨(processLoop [] [] es 0 none n1).1,
          (processLoop [] [] es 0 none n1).2.1,
          some { tr with lastProcessedBlock := t1, lastProcessedAt := n1 }⟩
      := by
    unfold processEvents
    dsimp only
    rw [if_pos hok1]
  rw [hstate1]
  have hskip := processLoop_skip_all es (processLoop [] [] es 0 none n1).1
    (processLoop [] [] es 0 none n1).2.1 0 n2
    (fun e he => processLoop_covers es [] [] 0 n1 e he)
  constructor <;>
    · unfold processEvents
      dsimp only
      rw [hskip]
      rfl

/-- Amended claim C5: on every invocation of `processEvents` that throws
(no tracker document, fetch failure, or a store fault mid-loop) the
tracker document — including `lastProcessedBlock` — is left entirely
unchanged.  No `inProgress` bracket exists: the flag declared on the
tracker type is never written on any path. -/
theorem processEvents_error_leaves_tracker_unchanged
    (s : ReconState) (target : Nat)
    (fetchRes : Except String (List ChainEvent)) (fault : FaultSpec)
    (now : Nat) (msg : String)
    (herr : (processEvents s target fetchRes fault now).outcome =
      .error msg) :
    (processEvents s target fetchRes fault now).state.tracker = s.tracker
    := by
  unfold processEvents at herr ⊢
  cases htr : s.tracker with
  | none => exact htr
  | some tracker =>
      cases fetchRes with
      | error m => exact htr
      | ok evs =>
          rw [htr] at herr
          dsimp only at herr ⊢
          by_cases hok :
              (processLoop s.events s.vaults evs 0 fault now).2.2.2 = true
          · rw [if_pos hok] at herr
            exact Except.noConfusion herr
          · rw [if_neg hok]

/-- Witness for the amended C5: a failed fetch leaves the concrete
tracker untouched. -/
theorem processEvents_error_leaves_tracker_unchanged_witness :
    (processEvents ⟨[], [], some ⟨100, 0, true, none, 10⟩⟩ 105
      (.error "network down") none 7).state.tracker =
      some ⟨100, 0, true, none, 10⟩ :=
  processEvents_error_leaves_tracker_unchanged
    ⟨[], [], some ⟨100, 0, true, none, 10⟩⟩ 105 (.error "network down")
    none 7 "network down" rfl

/-- Counterexample to claim C5: starting from a tracker whose
`isProcessing` flag is stuck true, neither an erroring pass nor a
successful pass clears it — `processEvents` never writes the flag, so it
is not "set to true at the start" nor "cleared on exit". -/
theorem processEvents_no_inprogress_bracket_cex :
    (processEvents ⟨[], [], some ⟨100, 0, true, none, 10⟩⟩ 105
      (.error "network down") none 7).state.tracker =
      some ⟨100, 0, true, none, 10⟩ ∧
    (processEvents ⟨[], [], some ⟨100, 0, true, none, 10⟩⟩ 105
      (.ok []) none 7).state.tracker = some ⟨105, 7, true, none, 10⟩ := by
  decide

/-- The loop keeps the unique-index invariant: at most one document per
compound key. -/
theorem processLoop_count_le :
    ∀ (evs : List ChainEvent) (led : List EventModel.StoredEvent)
      (vs : VaultModel.VaultStore) (idx now : Nat) (k : String × String),
      EventModel.countKey led k ≤ 1 →
      EventModel.countKey (processLoop led vs evs idx none now).1 k ≤ 1
    := by
  intro evs
  induction evs with
  | nil => intro led vs idx now k h; exact h
  | cons e rest ih =>
      intro led vs idx now k h
      unfold processLoop
      try dsimp only
      rw [if_neg (by simp : ¬(none : Option Nat) = some idx)]
      by_cases hk : EventModel.hasKey led (EventModel.eventKey e) = true
      · rw [if_pos hk]; exact ih _ _ _ _ _ h
      · rw [if_neg hk]
        try dsimp only
        rw [Bool.not_eq_true] at hk
        have hstore :
            EventModel.countKey (EventModel.storeFromEvent led e) k ≤ 1 := by
          unfold EventModel.storeFromEvent
          by_cases hkk : k = EventModel.docKey (EventModel.docOf e)
          · subst hkk
            rw [EventModel.countKey_upsert_self]
            have h0 : EventModel.countKey led
                (EventModel.docKey (EventModel.docOf e)) = 0 :=
              EventModel.countKey_zero_of_not_hasKey _ _ hk
            rw [h0]
            simp
          · rw [EventModel.countKey_upsert_ne _ _ _ hkk]
            exact h
        by_cases hv : isVaultEvent e.type = true
        · rw [if_pos hv]; exact ih _ _ _ _ _ hstore
        · rw [if_neg hv]; exact ih _ _ _ _ _ hstore

/-- Claim C7: storing two RawEvents with identical
(transactionHash, chainStatus) — by repeated `storeFromEvent` calls or a
repeated `processEvents` pass — leaves exactly one stored document,
while two events sharing a transaction hash but differing in chain
status are stored as two distinct documents. -/
theorem event_ledger_dedup :
    (∀ (led : List EventModel.StoredEvent) (e : ChainEvent),
        EventModel.countKey led (EventModel.eventKey e) ≤ 1 →
        EventModel.countKey
          (EventModel.storeFromEvent (EventModel.storeFromEvent led e) e)
          (EventModel.eventKey e) = 1) ∧
    (∀ e1 e2 : ChainEvent, e1.transactionHash = e2.transactionHash →
        e1.chainStatus ≠ e2.chainStatus →
        EventModel.storeFromEvent (EventModel.storeFromEvent [] e1) e2 =
          [EventModel.docOf e1, EventModel.docOf e2] ∧
        EventModel.docKey (EventModel.docOf e1) ≠
          EventModel.docKey (EventModel.docOf e2)) ∧
    (∀ (tr : BlockTracker) (es : List ChainEvent) (t n : Nat)
        (e : ChainEvent), e ∈ es →
        EventModel.countKey
          ((processEvents ⟨[], [], some tr⟩ t
            (.ok es) none n).state.events)
          (EventModel.eventKey e) = 1) := by
  have hkey : ∀ e : ChainEvent,
      EventModel.docKey (EventModel.docOf e) = EventModel.eventKey e :=
    fun e => rfl
  refine ⟨?_, ?_, ?_⟩
  · intro led e h
    have h1 : EventModel.countKey (EventModel.storeFromEvent led e)
        (EventModel.eventKey e) = 1 := by
      unfold EventModel.storeFromEvent
      rw [← hkey e, EventModel.countKey_upsert_self, hkey e]
      rcases Nat.le_one_iff_eq_zero_or_eq_one.mp h with h0 | h1
      · rw [h0]; simp
      · rw [h1]; simp
    unfold EventModel.storeFromEvent at h1 ⊢
    rw [← hkey e, EventModel.countKey_upsert_self, hkey e, h1]
    simp
  · intro e1 e2 htx hst
    have hne : EventModel.docKey (EventModel.docOf e1) ≠
        EventModel.docKey (EventModel.docOf e2) :=
      fun hp => hst (congrArg Prod.snd hp)
    refine ⟨?_, hne⟩
    show EventModel.upsert (EventModel.upsert [] (EventModel.docOf e1))
        (EventModel.docOf e2) = _
    simp [EventModel.upsert, hne]
  · intro tr es t n e he
    have hle : EventModel.countKey (processLoop [] [] es 0 none n).1
        (EventModel.eventKey e) ≤ 1 :=
      processLoop_count_le es [] [] 0 n (EventModel.eventKey e)
        (Nat.zero_le 1)
    have hpos := EventModel.countKey_pos_of_hasKey _ _
      (processLoop_covers es [] [] 0 n e he)
    have hstate1 :
        (processEvents ⟨[], [], some tr⟩ t (.ok es) none n).state.events =
          (processLoop [] [] es 0 none n).1 := by
      unfold processEvents
      dsimp only
      rw [if_pos (processLoop_ok_of_no_fault es [] [] 0 n)]
    rw [hstate1]
    omega

/-- Witness for C7: storing the same concrete event twice leaves one
document; pending and included copies of one transaction give two. -/
theorem event_ledger_dedup_witness :
    EventModel.countKey
      (EventModel.storeFromEvent
        (EventModel.storeFromEvent []
          ⟨12, "bh", "pbh", 3, "pending", .NewVault,
            ⟨"a", "o", "", 0, 0⟩, "h1", "applied", ""⟩)
        ⟨12, "bh", "pbh", 3, "pending", .NewVault,
          ⟨"a", "o", "", 0, 0⟩, "h1", "applied", ""⟩)
      (EventModel.eventKey
        ⟨12, "bh", "pbh", 3, "pending", .NewVault,
          ⟨"a", "o", "", 0, 0⟩, "h1", "applied", ""⟩) = 1 :=
  event_ledger_dedup.1 []
    ⟨12, "bh", "pbh", 3, "pending", .NewVault,
      ⟨"a", "o", "", 0, 0⟩, "h1", "applied", ""⟩ (by decide)

end EventProcessor

/-! ## Theorems about the oracle submission collector -/

namespace OracleAggregator

/-- A successful collection has one submission per requested slot. -/
theorem collectAux_length :
    ∀ (idxs : List Nat) (keys : List KeyPair) (wl : List String)
      (h : Nat) (subs : List PriceSubmission),
      collectAux keys wl h idxs = .ok subs →
      subs.length = idxs.length := by
  intro idxs
  induction idxs with
  | nil =>
      intro keys wl h subs hok
      simp only [collectAux, Except.ok.injEq] at hok
      rw [← hok]
      rfl
  | cons i rest ih =>
      intro keys wl h subs hok
      unfold collectAux at hok
      cases hb : buildSubmission keys wl h i with
      | error e => rw [hb] at hok; exact Except.noConfusion hok
      | ok sub =>
          rw [hb] at hok
          dsimp only at hok
          cases hr : collectAux keys wl h rest with
          | error e => rw [hr] at hok; exact Except.noConfusion hok
          | ok subs' =>
              rw [hr] at hok
              dsimp only at hok
              injection hok with hh
              rw [← hh, List.length_cons, List.length_cons,
                ih keys wl h subs' hr]

/-- Each slot of a successful collection is the one built for its
index. -/
theorem collectAux_get :
    ∀ (idxs : List Nat) (keys : List KeyPair) (wl : List String)
      (h : Nat) (subs : List PriceSubmission),
      collectAux keys wl h idxs = .ok subs →
      ∀ j, j < idxs.length →
        ∃ ij sub, idxs[j]? = some ij ∧ subs[j]? = some sub ∧
          buildSubmission keys wl h ij = .ok sub := by
  intro idxs
  induction idxs with
  | nil => intro keys wl h subs _ j hj; cases hj
  | cons i rest ih =>
      intro keys wl h subs hok j hj
      unfold collectAux at hok
      cases hb : buildSubmission keys wl h i with
      | error e => rw [hb] at hok; exact Except.noConfusion hok
      | ok sub =>
          rw [hb] at hok
          dsimp only at hok
          cases hr : collectAux keys wl h rest with
          | error e => rw [hr] at hok; exact Except.noConfusion hok
          | ok subs' =>
              rw [hr] at hok
              dsimp only at hok
              injection hok with hh
              cases j with
              | zero => exact ⟨i, sub, by simp, by rw [← hh]; simp, hb⟩
              | succ j' =>
                  have hj' : j' < rest.length := by
                    simpa [List.length_cons] using hj
                  obtain ⟨ij, s, hij, hs, hbuild⟩ :=
                    ih keys wl h subs' hr j' hj'
                  exact ⟨ij, s, by simpa using hij, by rw [← hh]; simpa
                    using hs, hbuild⟩

/-- Claim C8: `collectSubmissions` either returns a list of exactly
`maxParticipants` submissions ordered by slot index — slot `i` carrying
a signature over `[price, blockHeight]` from the `i`-th configured
oracle key when one exists, and otherwise the whitelist's address for
that slot (the designated dummy public key, by the configuration's
construction) with `Signature.empty()` and the dummy flag — or fails as
a whole with the single classified collection error; no partial list is
ever produced. -/
theorem collectSubmissions_shape
    (maxP : Nat) (keys : List KeyPair) (wl : List String) (h : Nat) :
    (∀ subs, collectSubmissions maxP keys wl h = .ok subs →
      subs.length = maxP ∧
      (∀ i, i < maxP → i < keys.length →
        ∃ k, keys[i]? = some k ∧
          subs[i]? = some ⟨k.publicKey, submissionPrice,
            .signFields [submissionPrice, h] k.privateKey, h, false⟩) ∧
      (∀ i, i < maxP → keys.length ≤ i →
        ∃ a, wl[i]? = some a ∧
          subs[i]? = some ⟨a, submissionPrice, .empty, h, true⟩)) ∧
    (∀ dummyPk,
      (∀ i, keys.length ≤ i → i < maxP → wl[i]? = some dummyPk) →
      ∀ subs, collectSubmissions maxP keys wl h = .ok subs →
      ∀ i, keys.length ≤ i → i < maxP →
        subs[i]? = some ⟨dummyPk, submissionPrice, .empty, h, true⟩) ∧
    (∀ msg, collectSubmissions maxP keys wl h = .error msg →
      msg = "Failed to collect oracle submissions") := by
  have hmain : ∀ subs, collectSubmissions maxP keys wl h = .ok subs →
      subs.length = maxP ∧
      (∀ i, i < maxP → i < keys.length →
        ∃ k, keys[i]? = some k ∧
          subs[i]? = some ⟨k.publicKey, submissionPrice,
            .signFields [submissionPrice, h] k.privateKey, h, false⟩) ∧
      (∀ i, i < maxP → keys.length ≤ i →
        ∃ a, wl[i]? = some a ∧
          subs[i]? = some ⟨a, submissionPrice, .empty, h, true⟩) := by
    intro subs hok
    unfold collectSubmissions at hok
    cases ha : collectAux keys wl h (List.range maxP) with
    | error e => rw [ha] at hok; exact Except.noConfusion hok
    | ok subs' =>
        rw [ha] at hok
        dsimp only at hok
        injection hok with hh
        subst hh
        refine ⟨?_, ?_, ?_⟩
        · rw [collectAux_length _ _ _ _ _ ha, List.length_range]
        · intro i hi hik
          obtain ⟨ij, sub, hij, hsub, hbuild⟩ :=
            collectAux_get _ _ _ _ _ ha i (by simpa using hi)
          rw [List.getElem?_range hi] at hij
          injection hij with hij'
          subst hij'
          unfold buildSubmission at hbuild
          cases hkey : keys[i]? with
          | none =>
              exfalso
              rw [List.getElem?_eq_none_iff] at hkey
              omega
          | some k =>
              rw [hkey] at hbuild
              dsimp only at hbuild
              injection hbuild with hb'
              exact ⟨k, rfl, by rw [hsub, hb']⟩
        · intro i hi hik
          obtain ⟨ij, sub, hij, hsub, hbuild⟩ :=
            collectAux_get _ _ _ _ _ ha i (by simpa using hi)
          rw [List.getElem?_range hi] at hij
          injection hij with hij'
          subst hij'
          unfold buildSubmission at hbuild
          have hkey : keys[i]? = none := by
            rw [List.getElem?_eq_none_iff]; omega
          rw [hkey] at hbuild
          dsimp only at hbuild
          cases hwl : wl[i]? with
          | none => rw [hwl] at hbuild; exact Except.noConfusion hbuild
          | some a =>
              rw [hwl] at hbuild
              dsimp only at hbuild
              injection hbuild with hb'
              exact ⟨a, rfl, by rw [hsub, hb']⟩
  refine ⟨hmain, ?_, ?_⟩
  · intro dummyPk hdum subs hok i hilen himax
    obtain ⟨a, hwl, hsub⟩ := (hmain subs hok).2.2 i himax hilen
    rw [hdum i hilen himax] at hwl
    injection hwl with ha'
    rw [hsub, ha']
  · intro msg herr
    unfold collectSubmissions at herr
    cases ha : collectAux keys wl h (List.range maxP) with
    | error e =>
        rw [ha] at herr
        dsimp only at herr
        injection herr with hh
        exact hh.symm
    | ok subs' => rw [ha] at herr; exact Except.noConfusion herr

/-- Witness for C8: one real key and two dummy slots at
`MAX_PARTICIPANTS = 3` produce the expected fixed-arity list. -/
theorem collectSubmissions_shape_witness :
    ([⟨"pk0", submissionPrice,
        .signFields [submissionPrice, 7] "sk0", 7, false⟩,
      ⟨"d1", submissionPrice, .empty, 7, true⟩,
      ⟨"d2", submissionPrice, .empty, 7, true⟩] :
      List PriceSubmission).length = 3 :=
  ((collectSubmissions_shape 3 [⟨"pk0", "sk0"⟩] ["pk0", "d1", "d2"] 7).1
    _ rfl).1

end OracleAggregator

end ZkUsdServices
